import Mathlib

/-!
Shallow embedding of `rowhammer_tester/scripts/logs2plot.py`
(the rowhammer attack-log plotting script) and proofs about it.

Conventions of the embedding:
* Python ordered dicts are modelled as association lists (`List (key × value)`);
  iteration order is list order, matching JSON-object insertion order.
* A per-bit-flip record (an element of a per-column error list) carries no
  information the script ever reads, so it is modelled as `Unit`; a column
  error list is a `List Unit` whose length is the flip count.
* Column labels are decimal strings converted with `int(col)` by the script;
  they are modelled directly as `Nat`.
* `plt.show`-style rendering calls are modelled as `Event`s appended to an
  output trace; `exit()` and uncaught Python exceptions are modelled as an
  `Abort` value that stops the walk.
-/

set_option autoImplicit false

namespace Logs2Plot

/-- One value of an `errors_in_rows` mapping in the log: the script reads the
stored fields `row` (line 80), `bitflips` (line 79) and the per-column flip
lists under `col` (line 33). -/
structure RowErrors where
  row : Nat
  bitflips : Nat
  col : List (Nat × List Unit)
  deriving Repr, DecidableEq

/-- The ordered mapping from victim-row label to its errors, as iterated by
`data["errors_in_rows"].items()`. -/
abbrev ErrorsInRows := List (String × RowErrors)

/-- One attack record of the log.  In the JSON log a record is an object; the
script reads `hammer_row_1` / `hammer_row_2` on `pair`-named records,
`row_pairs` on `sequential`-named records, and `errors_in_rows` on any record
it processes, so all four fields are carried here. -/
structure AttackRecord where
  hammer_row_1 : Nat
  hammer_row_2 : Nat
  row_pairs : List (Nat × Nat)
  errors_in_rows : ErrorsInRows
  deriving Repr, DecidableEq

/-- An attack-set result: ordered mapping attack name → record (a possible
`read_count` sibling is dropped by the walker before iteration). -/
abbrev AttackSetResult := List (String × AttackRecord)

/-- The whole log: ordered mapping attack-set name → attack-set result. -/
abbrev AttackLog := List (String × AttackSetResult)

/-! ## plot_single_attack, lines 31-36: flattening the ragged error structure -/

/-- Flattened `row_vals` list built from position `i` on: the loop body at
lines 33-36 appends the enumeration index `i` once per per-bit-flip record of
the row, for each row in iteration order. -/
def row_vals_from (i : Nat) : ErrorsInRows → List Nat
  | [] => []
  | (_, re) :: rest =>
      re.col.flatMap (fun c => c.2.map (fun _ => i)) ++ row_vals_from (i + 1) rest

/-- `row_vals` of `plot_single_attack` (lines 25-36): one dense row index per
observed bit flip. -/
def row_vals (e : ErrorsInRows) : List Nat := row_vals_from 0 e

/-- `col_vals` of `plot_single_attack` (lines 28-36): one absolute column
number per observed bit flip, appended in lockstep with `row_vals`. -/
def col_vals : ErrorsInRows → List Nat
  | [] => []
  | (_, re) :: rest =>
      re.col.flatMap (fun c => c.2.map (fun _ => c.1)) ++ col_vals rest

/-- `row_labels` of `plot_single_attack` (line 32): the row label strings in
iteration order. -/
def row_labels (e : ErrorsInRows) : List String := e.map (fun p => p.1)

/-- Dense-index assignment implicit in the `enumerate` loop of lines 31-36:
the row label at iteration position `i` is bound to dense row index `i`
(`row_vals` records `i`, `plt.yticks` pairs position `i` with `row_labels[i]`).
`dense_index_from k ls` lists `(label, index)` pairs starting at index `k`. -/
def dense_index_from (k : Nat) : List String → List (String × Nat)
  | [] => []
  | l :: rest => (l, k) :: dense_index_from (k + 1) rest

/-- The label-to-dense-index assignment of `plot_single_attack`. -/
def dense_index (e : ErrorsInRows) : List (String × Nat) :=
  dense_index_from 0 (row_labels e)

/-- Total number of per-bit-flip records of an `ErrorsInRows` structure: the
sum, over all rows and all columns, of the per-column flip-list lengths. -/
def total_flips (e : ErrorsInRows) : Nat :=
  (e.map (fun p => (p.2.col.map (fun c => c.2.length)).sum)).sum

/-! ## Colorbar tick step, lines 58-60 and 125-126 -/

/-- Colorbar tick step computed by `plot_single_attack` (line 59):
`ticks_step = max(1, int(max_errors // 20))` with `max_errors = int(h.max())`
a non-negative integer, so Python `//` is floor division on `Nat`. -/
def ticks_step_single (max_errors : Nat) : Nat := max 1 (max_errors / 20)

/-- Colorbar tick step computed by `plot_aggressors_vs_victims` (line 126),
textually identical to the single-attack one. -/
def ticks_step_avv (max_errors : Nat) : Nat := max 1 (max_errors / 20)

/-! ## plot_aggressors_vs_victims, lines 66-95: flattening the table -/

/-- The `aggressors_vs_victims` table built by the walker: ordered mapping
aggressor row → the `errors_in_rows.items()` list of one attack record. -/
abbrev Table := List (Nat × ErrorsInRows)

/-- Python dict assignment `d[k] = v` on an ordered dict: an existing key
keeps its position and gets the new value, a fresh key is appended. -/
def dictSet (t : Table) (k : Nat) (v : ErrorsInRows) : Table :=
  if t.any (fun p => p.1 = k) then
    t.map (fun p => if p.1 = k then (k, v) else p)
  else
    t ++ [(k, v)]

/-- Python dict lookup `d[k]` on the table (`none` models `KeyError`). -/
def dictGet (t : Table) (k : Nat) : Option ErrorsInRows :=
  (t.find? (fun p => p.1 = k)).map (fun p => p.2)

/-- The `aggressors` list of `plot_aggressors_vs_victims` (lines 75-83): the
aggressor key repeated once per victim entry under it. -/
def avv_aggressors (data : Table) : List Nat :=
  data.flatMap (fun p => p.2.map (fun _ => p.1))

/-- The `victims` list of `plot_aggressors_vs_victims` (lines 75-82): for each
victim entry `v`, the stored field `v[1]["row"]` (line 80). -/
def avv_victims (data : Table) : List Nat :=
  data.flatMap (fun p => p.2.map (fun v => v.2.row))

/-- The `bitflips` list of `plot_aggressors_vs_victims` (lines 75-84): for
each victim entry `v`, the stored field `v[1]["bitflips"]` (line 79), taken
as-is from the log. -/
def avv_bitflips (data : Table) : List Nat :=
  data.flatMap (fun p => p.2.map (fun v => v.2.bitflips))

/-! ## The log walker (`__main__` loop, lines 166-214) -/

/-- Observable outputs of the walker: each plotting call becomes one event.
`singleRender` is the `plot_single_attack(...)` call at lines 206-212 (the
title argument and the record are what vary per call); `aggregateRender` is
the `plot_aggressors_vs_victims(aggressors_vs_victims, args.annotate)` call
at line 214, carrying the table it is handed. -/
inductive Event where
  | singleRender (title : String) (rec : AttackRecord)
  | aggregateRender (table : Table)
  deriving Repr, DecidableEq

/-- Ways the walk stops early.  The first two model the `print(...)` plus
`exit()` at lines 183-186 and 199-203; the remaining ones model uncaught
Python exceptions (`NameError` when `title` or `hammered_rows` is read before
any branch has bound it, `IndexError` when `row_pairs` is empty at lines
178-179). -/
inductive Abort where
  | sequentialInAggregate
  | unequalHammerRows
  | nameErrorTitle
  | nameErrorHammeredRows
  | indexErrorRowPairs
  deriving Repr, DecidableEq

/-- Diagnostic text printed before `exit()` for the two deliberate aborts
(lines 183-185 and 199-202); the exception aborts print a traceback, not a
diagnostic. -/
def diagnostic : Abort → Option String
  | Abort.sequentialInAggregate =>
      some "ERROR: Sequential attacks are not hammering a single row. Unable to compare aggressors against victims."
  | Abort.unequalHammerRows =>
      some "ERROR: Attacks are not hammering single rows. Unable to plot aggressors against their victims. Use `--row-pair-distance 0` to target single row at once."
  | _ => none

/-- The loop variables `hammered_rows` and `title` of the walker.  In Python
they are plain local variables that persist across loop iterations (and
across attack sets); `none` models the unbound state before first
assignment. -/
structure Vars where
  hammered_rows : Option (Nat × Nat)
  title : Option String
  deriving Repr, DecidableEq

/-- Initial walker state: no loop variable bound yet. -/
def initVars : Vars := { hammered_rows := none, title := none }

/-- Result of processing one record or one attack set: the loop variables,
the table, the events emitted, and `some a` when the walk stopped. -/
structure StepOut where
  vars : Vars
  table : Table
  events : List Event
  abort : Option Abort
  deriving Repr, DecidableEq

/-- Title text built at line 176 for a `pair` record. -/
def pairTitle (hr : Nat × Nat) : String :=
  "Hammered rows: (" ++ toString hr.1 ++ ", " ++ toString hr.2 ++ ")"

/-- Title text built at line 180 for a `sequential` record. -/
def sequentialTitle (start_row end_row : Nat) : String :=
  "Sequential attack on rows from " ++ toString start_row ++ " to " ++ toString end_row

/-- Python's `str.startswith`, as used by the classification tests
`attack.startswith("pair")` (line 174) and `attack.startswith("sequential")`
(line 177): the argument string is a prefix of the receiver's character
sequence. -/
def startswith (s pre : String) : Bool := pre.toList.isPrefixOf s.toList

/-- Second half of the loop body (lines 188-212): in aggregate mode the
record's `errors_in_rows.items()` list is stored into the table under
`hammered_rows[0]` (lines 191-196) and then the equality of the two hammered
rows is checked (lines 198-203); otherwise `plot_single_attack` is called
with the current `title` (lines 205-212).  Reaches the loop variables as they
stand after classification, so an unrecognized record uses stale bindings. -/
def collectOrPlot (aggMode : Bool) (vars : Vars) (table : Table)
    (rec : AttackRecord) : StepOut :=
  if aggMode then
    match vars.hammered_rows with
    | none => ⟨vars, table, [], some Abort.nameErrorHammeredRows⟩
    | some hr =>
        let table' := dictSet table hr.1 rec.errors_in_rows
        if hr.1 ≠ hr.2 then ⟨vars, table', [], some Abort.unequalHammerRows⟩
        else ⟨vars, table', [], none⟩
  else
    match vars.title with
    | none => ⟨vars, table, [], some Abort.nameErrorTitle⟩
    | some t => ⟨vars, table, [Event.singleRender t rec], none⟩

/-- One iteration of the record loop (lines 173-212).  Classification is by
name prefix (lines 174 and 177); a name matching neither prefix takes no
branch and falls through to `collectOrPlot` with the loop variables
unchanged. -/
def processRecord (aggMode : Bool) (vars : Vars) (table : Table)
    (attack : String) (rec : AttackRecord) : StepOut :=
  if startswith attack "pair" then
    let hr := (rec.hammer_row_1, rec.hammer_row_2)
    let vars' : Vars := { hammered_rows := some hr, title := some (pairTitle hr) }
    collectOrPlot aggMode vars' table rec
  else if startswith attack "sequential" then
    match rec.row_pairs.head?, rec.row_pairs.getLast? with
    | some first, some last =>
        let vars' : Vars := { vars with title := some (sequentialTitle first.2 last.2) }
        if aggMode then ⟨vars', table, [], some Abort.sequentialInAggregate⟩
        else collectOrPlot aggMode vars' table rec
    | _, _ => ⟨vars, table, [], some Abort.indexErrorRowPairs⟩
  else
    collectOrPlot aggMode vars table rec

/-- The record loop over one attack set plus the per-set epilogue: when the
whole set is processed without an abort and aggregate mode is on, the
aggregate render of line 214 fires with the table as built. -/
def walkSet (aggMode : Bool) (vars : Vars) (table : Table) :
    AttackSetResult → StepOut
  | [] => ⟨vars, table, if aggMode then [Event.aggregateRender table] else [], none⟩
  | (name, rec) :: rest =>
      let s := processRecord aggMode vars table name rec
      match s.abort with
      | some a => ⟨s.vars, s.table, s.events, some a⟩
      | none =>
          let s' := walkSet aggMode s.vars s.table rest
          ⟨s'.vars, s'.table, s.events ++ s'.events, s'.abort⟩

/-- The outer loop over attack sets (lines 166-214): per set, the
`aggressors_vs_victims` dict is reset to empty (line 167) and a `read_count`
sibling is dropped (lines 169-170) before the record loop runs. -/
def walkLog (aggMode : Bool) (vars : Vars) : AttackLog → Vars × List Event × Option Abort
  | [] => ⟨vars, [], none⟩
  | (_, setResults) :: rest =>
      let setResults' := setResults.filter (fun p => p.1 ≠ "read_count")
      let s := walkSet aggMode vars [] setResults'
      match s.abort with
      | some a => ⟨s.vars, s.events, some a⟩
      | none =>
          let r := walkLog aggMode s.vars rest
          ⟨r.1, s.events ++ r.2.1, r.2.2⟩

/-- Whole-script run: walk the full log starting from unbound loop
variables.  Returns the event trace and the abort, if any. -/
def runScript (aggMode : Bool) (log : AttackLog) : List Event × Option Abort :=
  let r := walkLog aggMode initVars log
  (r.2.1, r.2.2)

/-- Test for the aggregate-render event, used to count renders in a trace. -/
def isAggregateRender : Event → Bool
  | Event.aggregateRender _ => true
  | _ => false

/-- A record disqualifies an aggregate-mode run (§4.5 of the spec): it is
named `sequential…`, or named `pair…` with unequal hammer rows. -/
def disqualifying (attack : String) (rec : AttackRecord) : Prop :=
  startswith attack "sequential" = true ∨
    (startswith attack "pair" = true ∧ rec.hammer_row_1 ≠ rec.hammer_row_2)

/-! ## Concrete example data, used by counterexamples and witnesses -/

/-- Victim-row errors with 3 flips in column 5 (row 201 of the spec's second
scenario). -/
def reA : RowErrors := { row := 201, bitflips := 3, col := [(5, [(), (), ()])] }

/-- Victim-row errors with 1 flip in column 3 (row 202 of the spec's second
scenario). -/
def reB : RowErrors := { row := 202, bitflips := 1, col := [(3, [()])] }

/-- Victim-row errors whose stored `bitflips` field (5) disagrees with the
sum of its per-column flip-list lengths (3). -/
def reBad : RowErrors := { row := 101, bitflips := 5, col := [(3, [(), (), ()])] }

/-- A qualifying pair record hammering row 200 with victim row 201. -/
def recA : AttackRecord :=
  { hammer_row_1 := 200, hammer_row_2 := 200, row_pairs := [],
    errors_in_rows := [("201", reA)] }

/-- A qualifying pair record hammering row 200 with victim row 202. -/
def recB : AttackRecord :=
  { hammer_row_1 := 200, hammer_row_2 := 200, row_pairs := [],
    errors_in_rows := [("202", reB)] }

/-- A pair record whose stored victim `bitflips` field is not the per-column
sum. -/
def recBad : AttackRecord :=
  { hammer_row_1 := 100, hammer_row_2 := 100, row_pairs := [],
    errors_in_rows := [("101", reBad)] }

/-- A pair record with unequal hammer rows (the spec's third scenario). -/
def recU : AttackRecord :=
  { hammer_row_1 := 50, hammer_row_2 := 60, row_pairs := [],
    errors_in_rows := [("51", reA)] }

/-- A sequential record sweeping rows 5 to 9. -/
def recSeq : AttackRecord :=
  { hammer_row_1 := 0, hammer_row_2 := 0, row_pairs := [(0, 5), (1, 9)],
    errors_in_rows := [] }

/-- A two-row `errors_in_rows` example for the dense-index witness. -/
def exE : ErrorsInRows := [("101", reA), ("105", reB)]

/-! ## Helper lemmas -/

theorem row_vals_from_length (i : Nat) (e : ErrorsInRows) :
    (row_vals_from i e).length = total_flips e := by
  induction e generalizing i with
  | nil => rfl
  | cons p rest ih =>
      have h1 := ih (i + 1)
      simp only [row_vals_from, List.length_append, List.length_flatMap, Function.comp_def,
        List.length_map, total_flips, List.map_cons, List.sum_cons] at h1 ⊢
      omega

theorem col_vals_length (e : ErrorsInRows) :
    (col_vals e).length = total_flips e := by
  induction e with
  | nil => rfl
  | cons p rest ih =>
      simp only [col_vals, List.length_append, List.length_flatMap, Function.comp_def,
        List.length_map, total_flips, List.map_cons, List.sum_cons] at ih ⊢
      omega

theorem dense_index_from_length (k : Nat) (ls : List String) :
    (dense_index_from k ls).length = ls.length := by
  induction ls generalizing k with
  | nil => rfl
  | cons l rest ih => simp [dense_index_from, ih]

theorem dense_index_from_get (k : Nat) (ls : List String) (i : Nat)
    (h : i < (dense_index_from k ls).length) :
    ((dense_index_from k ls).get ⟨i, h⟩).2 = k + i := by
  induction ls generalizing k i with
  | nil => simp [dense_index_from] at h
  | cons l rest ih =>
      cases i with
      | zero => simp [dense_index_from]
      | succ n =>
          have h' : n < (dense_index_from (k + 1) rest).length := by
            simpa [dense_index_from, Nat.succ_lt_succ_iff] using h
          have := ih (k + 1) n h'
          simpa [dense_index_from, Nat.add_assoc, Nat.add_comm 1 n] using this

theorem dictGet_dictSet (t : Table) (k : Nat) (v : ErrorsInRows) :
    dictGet (dictSet t k v) k = some v := by
  unfold dictSet dictGet
  by_cases h : t.any (fun p => p.1 = k)
  · simp only [h, if_true]
    rw [List.find?_map]
    have hpred : ((fun p : Nat × ErrorsInRows => decide (p.1 = k)) ∘
        (fun p : Nat × ErrorsInRows => if p.1 = k then (k, v) else p)) =
        (fun p : Nat × ErrorsInRows => decide (p.1 = k)) := by
      funext p
      by_cases hp : p.1 = k <;> simp [hp]
    rw [hpred]
    have hsome : (t.find? (fun p => decide (p.1 = k))).isSome = true := by
      rw [List.find?_isSome]
      simpa using List.any_eq_true.mp h
    obtain ⟨r, hr⟩ := Option.isSome_iff_exists.mp hsome
    have hrk : r.1 = k := by simpa using List.find?_some hr
    simp [hr, hrk]
  · rw [if_neg (by simpa using h)]
    rw [List.find?_append]
    have hnone : t.find? (fun p => decide (p.1 = k)) = none := by
      rw [List.find?_eq_none]
      intro x hx hxk
      exact h (List.any_eq_true.mpr ⟨x, hx, hxk⟩)
    simp [hnone, List.find?]

theorem startswith_seq_not_pair (s : String) (h : startswith s "sequential" = true) :
    startswith s "pair" = false := by
  unfold startswith at h ⊢
  rw [List.isPrefixOf_iff_prefix] at h
  by_contra hb
  rw [Bool.not_eq_false, List.isPrefixOf_iff_prefix] at hb
  rcases List.prefix_or_prefix_of_prefix h hb with hc | hc
  · have := hc.length_le
    simp at this
  · obtain ⟨t, ht⟩ := hc
    have := congrArg List.head? ht
    simp at this

theorem startswith_ne_read_count (s : String)
    (h : startswith s "sequential" = true ∨ startswith s "pair" = true) :
    s ≠ "read_count" := by
  intro he
  subst he
  rcases h with h1 | h1 <;> exact absurd h1 (by decide)

theorem processRecord_pair_unequal (vars : Vars) (table : Table) (attack : String)
    (rec : AttackRecord) (hp : startswith attack "pair" = true)
    (hne : rec.hammer_row_1 ≠ rec.hammer_row_2) :
    processRecord true vars table attack rec =
      ⟨{ hammered_rows := some (rec.hammer_row_1, rec.hammer_row_2),
         title := some (pairTitle (rec.hammer_row_1, rec.hammer_row_2)) },
       dictSet table rec.hammer_row_1 rec.errors_in_rows, [],
       some Abort.unequalHammerRows⟩ := by
  simp [processRecord, hp, collectOrPlot, hne]

theorem processRecord_pair_equal (vars : Vars) (table : Table) (attack : String)
    (rec : AttackRecord) (hp : startswith attack "pair" = true)
    (heq : rec.hammer_row_1 = rec.hammer_row_2) :
    processRecord true vars table attack rec =
      ⟨{ hammered_rows := some (rec.hammer_row_1, rec.hammer_row_2),
         title := some (pairTitle (rec.hammer_row_1, rec.hammer_row_2)) },
       dictSet table rec.hammer_row_1 rec.errors_in_rows, [], none⟩ := by
  simp [processRecord, hp, collectOrPlot, heq]

theorem processRecord_sequential_agg (vars : Vars) (table : Table) (attack : String)
    (rec : AttackRecord) (hs : startswith attack "sequential" = true)
    (hrp : rec.row_pairs ≠ []) :
    ∃ vars', processRecord true vars table attack rec =
      ⟨vars', table, [], some Abort.sequentialInAggregate⟩ := by
  have hp := startswith_seq_not_pair attack hs
  obtain ⟨q, hq⟩ := Option.isSome_iff_exists.mp (List.head?_isSome.mpr hrp)
  obtain ⟨z, hz⟩ := Option.isSome_iff_exists.mp (List.getLast?_isSome.mpr hrp)
  refine ⟨{ vars with title := some (sequentialTitle q.2 z.2) }, ?_⟩
  simp [processRecord, hp, hs, hq, hz]

theorem processRecord_no_agg_events (aggMode : Bool) (vars : Vars) (table : Table)
    (attack : String) (rec : AttackRecord) :
    ((processRecord aggMode vars table attack rec).events.countP isAggregateRender) = 0 := by
  unfold processRecord collectOrPlot
  repeat' split
  all_goals simp [isAggregateRender, List.countP, List.countP.go]
  all_goals (split <;> simp [isAggregateRender, List.countP, List.countP.go])

theorem walkSet_cons_abort (aggMode : Bool) (vars : Vars) (table : Table)
    (name : String) (rec : AttackRecord) (rest : AttackSetResult) (a : Abort)
    (h : (processRecord aggMode vars table name rec).abort = some a) :
    walkSet aggMode vars table ((name, rec) :: rest) =
      ⟨(processRecord aggMode vars table name rec).vars,
       (processRecord aggMode vars table name rec).table,
       (processRecord aggMode vars table name rec).events, some a⟩ := by
  simp [walkSet, h]

theorem walkSet_cons_ok (aggMode : Bool) (vars : Vars) (table : Table)
    (name : String) (rec : AttackRecord) (rest : AttackSetResult)
    (h : (processRecord aggMode vars table name rec).abort = none) :
    walkSet aggMode vars table ((name, rec) :: rest) =
      ⟨(walkSet aggMode (processRecord aggMode vars table name rec).vars
          (processRecord aggMode vars table name rec).table rest).vars,
       (walkSet aggMode (processRecord aggMode vars table name rec).vars
          (processRecord aggMode vars table name rec).table rest).table,
       (processRecord aggMode vars table name rec).events ++
         (walkSet aggMode (processRecord aggMode vars table name rec).vars
            (processRecord aggMode vars table name rec).table rest).events,
       (walkSet aggMode (processRecord aggMode vars table name rec).vars
          (processRecord aggMode vars table name rec).table rest).abort⟩ := by
  simp [walkSet, h]

theorem walkSet_no_abort_one_render (vars : Vars) (table : Table) (s : AttackSetResult)
    (h : (walkSet true vars table s).abort = none) :
    ((walkSet true vars table s).events.countP isAggregateRender) = 1 := by
  induction s generalizing vars table with
  | nil => simp [walkSet, isAggregateRender, List.countP, List.countP.go]
  | cons p rest ih =>
      obtain ⟨name, rec⟩ := p
      cases hab : (processRecord true vars table name rec).abort with
      | some a =>
          rw [walkSet_cons_abort true vars table name rec rest a hab] at h
          exact absurd h (by simp)
      | none =>
          rw [walkSet_cons_ok true vars table name rec rest hab] at h ⊢
          simp only [List.countP_append, processRecord_no_agg_events]
          simpa using ih _ _ h

theorem walkSet_abort_no_render (aggMode : Bool) (vars : Vars) (table : Table)
    (s : AttackSetResult) (h : (walkSet aggMode vars table s).abort.isSome = true) :
    ((walkSet aggMode vars table s).events.countP isAggregateRender) = 0 := by
  induction s generalizing vars table with
  | nil => simp [walkSet] at h
  | cons p rest ih =>
      obtain ⟨name, rec⟩ := p
      cases hab : (processRecord aggMode vars table name rec).abort with
      | some a =>
          rw [walkSet_cons_abort aggMode vars table name rec rest a hab]
          exact processRecord_no_agg_events aggMode vars table name rec
      | none =>
          rw [walkSet_cons_ok aggMode vars table name rec rest hab] at h ⊢
          simp only [List.countP_append, processRecord_no_agg_events]
          simpa using ih _ _ h

theorem walkLog_cons_abort (aggMode : Bool) (vars : Vars) (sname : String)
    (sres : AttackSetResult) (rest : AttackLog) (a : Abort)
    (h : (walkSet aggMode vars [] (sres.filter (fun p => p.1 ≠ "read_count"))).abort = some a) :
    walkLog aggMode vars ((sname, sres) :: rest) =
      ⟨(walkSet aggMode vars [] (sres.filter (fun p => p.1 ≠ "read_count"))).vars,
       (walkSet aggMode vars [] (sres.filter (fun p => p.1 ≠ "read_count"))).events, some a⟩ := by
  simp only [walkLog]
  rw [h]

theorem walkLog_cons_ok (aggMode : Bool) (vars : Vars) (sname : String)
    (sres : AttackSetResult) (rest : AttackLog)
    (h : (walkSet aggMode vars [] (sres.filter (fun p => p.1 ≠ "read_count"))).abort = none) :
    walkLog aggMode vars ((sname, sres) :: rest) =
      ⟨(walkLog aggMode
          (walkSet aggMode vars [] (sres.filter (fun p => p.1 ≠ "read_count"))).vars rest).1,
       (walkSet aggMode vars [] (sres.filter (fun p => p.1 ≠ "read_count"))).events ++
         (walkLog aggMode
            (walkSet aggMode vars [] (sres.filter (fun p => p.1 ≠ "read_count"))).vars rest).2.1,
       (walkLog aggMode
          (walkSet aggMode vars [] (sres.filter (fun p => p.1 ≠ "read_count"))).vars rest).2.2⟩ := by
  simp only [walkLog]
  rw [h]

/-! ## Claim theorems -/

/-- C1 counterexample: an aggregate-mode run over one attack set holding two
pair records that both hammer aggressor row 200 (first with victim entry
("201", `reA`), second with victim entry ("202", `reB`)).  The rendered table
holds, under key 200, only the second record's entry; the first record's
victim entry was overwritten, not appended. -/
theorem aggregate_append_counterexample :
    (runScript true [("s1", [("pair_1", recA), ("pair_2", recB)])]).1
        = [Event.aggregateRender [(200, [("202", reB)])]] ∧
    dictGet [(200, [("202", reB)])] 200 = some [("202", reB)] ∧
    ("201", reA) ∉ [("202", reB)] := by decide

/-- C1 (amended): folding a qualifying pair record into the table stores its
victim entries under key `hammer_row_1` by dict assignment: afterwards that
key holds exactly this record's entries, so a later record hammering the same
aggressor row replaces an earlier record's entries instead of appending to
them. -/
theorem aggregate_same_aggressor_last_wins (vars : Vars) (table : Table)
    (attack : String) (rec : AttackRecord)
    (hp : startswith attack "pair" = true)
    (heq : rec.hammer_row_1 = rec.hammer_row_2) :
    (processRecord true vars table attack rec).abort = none ∧
    dictGet (processRecord true vars table attack rec).table rec.hammer_row_1
      = some rec.errors_in_rows := by
  rw [processRecord_pair_equal vars table attack rec hp heq]
  exact ⟨rfl, dictGet_dictSet table rec.hammer_row_1 rec.errors_in_rows⟩

/-- Witness for the amended C1 at a table that already holds an entry for
aggressor 200: after folding `recB` the key holds only `recB`'s entries. -/
theorem aggregate_same_aggressor_last_wins_witness :
    (processRecord true initVars [(200, [("201", reA)])] "pair_2" recB).abort = none ∧
    dictGet (processRecord true initVars [(200, [("201", reA)])] "pair_2" recB).table 200
      = some [("202", reB)] :=
  aggregate_same_aggressor_last_wins initVars [(200, [("201", reA)])] "pair_2" recB
    (by decide) (by decide)

/-- C2 counterexample: in per-attack mode, a log whose second record is named
"zzz" (recognized by neither classifier) walks to completion with no abort of
any kind, and the unrecognized record is rendered exactly like a recognized
one, under the stale title left by the preceding pair record. -/
theorem unrecognized_processed_counterexample :
    runScript false [("s1", [("pair_1", recA), ("zzz", recB)])]
      = ([Event.singleRender (pairTitle (200, 200)) recA,
          Event.singleRender (pairTitle (200, 200)) recB], none) := by decide

/-- C2 (amended): a record whose name starts with neither "pair" nor
"sequential" is not detected: classification falls through with the loop
variables unchanged and the record is processed as if recognized — in
per-attack mode it is rendered under the stale title (or the run dies with a
`NameError` when no title was ever bound, not a classification failure); in
aggregate mode its victim entries are folded under the stale hammered row. -/
theorem unrecognized_record_falls_through (aggMode : Bool) (vars : Vars) (table : Table)
    (attack : String) (rec : AttackRecord)
    (hp : startswith attack "pair" = false)
    (hs : startswith attack "sequential" = false) :
    processRecord aggMode vars table attack rec = collectOrPlot aggMode vars table rec ∧
    (∀ t, vars.title = some t →
      processRecord false vars table attack rec
        = ⟨vars, table, [Event.singleRender t rec], none⟩) ∧
    (vars.title = none →
      processRecord false vars table attack rec
        = ⟨vars, table, [], some Abort.nameErrorTitle⟩) ∧
    (∀ hr, vars.hammered_rows = some hr →
      (processRecord true vars table attack rec).table
        = dictSet table hr.1 rec.errors_in_rows) := by
  refine ⟨by simp [processRecord, hp, hs], ?_, ?_, ?_⟩
  · intro t ht
    simp [processRecord, hp, hs, collectOrPlot, ht]
  · intro ht
    simp [processRecord, hp, hs, collectOrPlot, ht]
  · intro hr hhr
    simp [processRecord, hp, hs, collectOrPlot, hhr, apply_ite StepOut.table]

/-- Witness for the amended C2: the "zzz"-named record is rendered under the
stale title "t". -/
theorem unrecognized_record_falls_through_witness :
    processRecord false { hammered_rows := some (200, 200), title := some "t" } [] "zzz" recB
      = ⟨{ hammered_rows := some (200, 200), title := some "t" }, [],
         [Event.singleRender "t" recB], none⟩ :=
  (unrecognized_record_falls_through false
      { hammered_rows := some (200, 200), title := some "t" } [] "zzz" recB
      (by decide) (by decide)).2.1 "t" rfl

/-- C3 counterexample: an aggregate-mode run over a log with two attack sets,
each holding one qualifying pair record, completes without abort and produces
two aggregate renders — one per attack set, not one for the whole file. -/
theorem one_render_per_file_counterexample :
    (runScript true [("s1", [("pair_1", recA)]), ("s2", [("pair_2", recB)])]).2 = none ∧
    ((runScript true [("s1", [("pair_1", recA)]), ("s2", [("pair_2", recB)])]).1.countP
        isAggregateRender) = 2 := by decide

/-- C3 (amended): the aggregate render fires once per attack set (the render
call and the table reset sit inside the attack-set loop), so an aggregate
walk that completes produces exactly as many aggregate renders as the log has
attack sets. -/
theorem aggregate_render_count_eq_sets (vars : Vars) (log : AttackLog)
    (h : (walkLog true vars log).2.2 = none) :
    ((walkLog true vars log).2.1.countP isAggregateRender) = log.length := by
  induction log generalizing vars with
  | nil => simp [walkLog, List.countP, List.countP.go]
  | cons p rest ih =>
      obtain ⟨sname, sres⟩ := p
      cases hab : (walkSet true vars [] (sres.filter (fun q => q.1 ≠ "read_count"))).abort with
      | some a =>
          rw [walkLog_cons_abort true vars sname sres rest a hab] at h
          exact absurd h (by simp)
      | none =>
          rw [walkLog_cons_ok true vars sname sres rest hab] at h ⊢
          simp only [List.countP_append, List.length_cons]
          rw [walkSet_no_abort_one_render _ _ _ hab, ih _ h]
          omega

/-- Witness for the amended C3 at a two-set log: two renders. -/
theorem aggregate_render_count_eq_sets_witness :
    ((walkLog true initVars [("s1", [("pair_1", recA)]), ("s2", [("pair_2", recB)])]).2.1.countP
        isAggregateRender) = 2 :=
  aggregate_render_count_eq_sets initVars
    [("s1", [("pair_1", recA)]), ("s2", [("pair_2", recB)])] (by decide)

/-- C6 counterexample: an aggregate-mode run over a log whose first attack set
qualifies and whose second set holds a sequential record: the first set's
aggregate render is produced, and only then does the run abort — so an
aggregate histogram was shown for a run over a log containing a sequential
record. -/
theorem abort_before_any_render_counterexample :
    runScript true [("s1", [("pair_1", recA)]), ("s2", [("sequential_1", recSeq)])]
      = ([Event.aggregateRender [(200, [("201", reA)])]],
         some Abort.sequentialInAggregate) := by decide

/-- C6 (amended): when the aggregate-mode walk of an attack set reaches a
sequential record, the walk aborts with `sequentialInAggregate` and that
attack set produces no aggregate render; aggregate renders of earlier,
completed attack sets have already been produced by then. -/
theorem sequential_set_aborts_without_render (vars : Vars) (table : Table)
    (attack : String) (rec : AttackRecord) (rest : AttackSetResult)
    (hs : startswith attack "sequential" = true) (hrp : rec.row_pairs ≠ []) :
    (walkSet true vars table ((attack, rec) :: rest)).abort
        = some Abort.sequentialInAggregate ∧
    ((walkSet true vars table ((attack, rec) :: rest)).events.countP isAggregateRender) = 0 := by
  obtain ⟨vars', hv⟩ := processRecord_sequential_agg vars table attack rec hs hrp
  rw [walkSet_cons_abort true vars table attack rec rest Abort.sequentialInAggregate
    (by rw [hv])]
  refine ⟨rfl, ?_⟩
  rw [hv]
  simp [List.countP, List.countP.go]

/-- Witness for the amended C6 at a one-record sequential set. -/
theorem sequential_set_aborts_without_render_witness :
    (walkSet true initVars [] [("sequential_1", recSeq)]).abort
        = some Abort.sequentialInAggregate ∧
    ((walkSet true initVars [] [("sequential_1", recSeq)]).events.countP isAggregateRender) = 0 :=
  sequential_set_aborts_without_render initVars [] "sequential_1" recSeq []
    (by decide) (by decide)

/-- C7 counterexample: a qualifying pair record whose victim row stores
`bitflips = 5` while its per-column flip lists sum to 3: the folded table
entry and the aggregate renderer's weight carry 5, not the per-column total
3. -/
theorem bitflips_sum_counterexample :
    dictGet (processRecord true initVars [] "pair_0" recBad).table 100
        = some [("101", reBad)] ∧
    avv_bitflips [(100, [("101", reBad)])] = [5] ∧
    ((reBad.col.map (fun c => c.2.length)).sum) = 3 ∧ (5 : Nat) ≠ 3 := by decide

/-- C7 (amended): for every qualifying pair record folded into the aggregate
table, the table stores the record's `errors_in_rows` entries verbatim, and
the bitflips value the aggregate renderer extracts for each victim row is the
entry's stored `bitflips` field — taken as-is from the log, not recomputed as
the sum of per-column flip-list lengths. -/
theorem bitflips_taken_from_record_field (vars : Vars) (table : Table)
    (attack : String) (rec : AttackRecord)
    (hp : startswith attack "pair" = true)
    (heq : rec.hammer_row_1 = rec.hammer_row_2) :
    dictGet (processRecord true vars table attack rec).table rec.hammer_row_1
        = some rec.errors_in_rows ∧
    avv_bitflips [(rec.hammer_row_1, rec.errors_in_rows)]
        = rec.errors_in_rows.map (fun v => v.2.bitflips) := by
  refine ⟨?_, ?_⟩
  · rw [processRecord_pair_equal vars table attack rec hp heq]
    exact dictGet_dictSet _ _ _
  · simp [avv_bitflips]

/-- Witness for the amended C7 at `recBad`: the stored field value 5 is what
the pipeline carries. -/
theorem bitflips_taken_from_record_field_witness :
    dictGet (processRecord true initVars [] "pair_0" recBad).table 100
        = some [("101", reBad)] ∧
    avv_bitflips [(100, [("101", reBad)])] = [5] :=
  bitflips_taken_from_record_field initVars [] "pair_0" recBad (by decide) (by decide)

/-- C9: a disqualifying record in aggregate mode (a sequential record, or a
pair record with unequal hammer rows) stops the walk with an abort whose
diagnostic text is printed; the remaining records of its attack set are never
processed, and later attack sets have no influence on the outcome. -/
theorem disqualifying_record_aborts_run (vars : Vars) (table : Table)
    (attack : String) (rec : AttackRecord) (rest : AttackSetResult)
    (hrp : startswith attack "sequential" = true → rec.row_pairs ≠ [])
    (hd : disqualifying attack rec) :
    ∃ a, (processRecord true vars table attack rec).abort = some a ∧
      (diagnostic a).isSome = true ∧
      walkSet true vars table ((attack, rec) :: rest) =
        ⟨(processRecord true vars table attack rec).vars,
         (processRecord true vars table attack rec).table,
         (processRecord true vars table attack rec).events, some a⟩ ∧
      ∀ sname moreSets moreSets',
        walkLog true vars ((sname, (attack, rec) :: rest) :: moreSets) =
          walkLog true vars ((sname, (attack, rec) :: rest) :: moreSets') := by
  have habort : ∀ tb : Table, ∃ a, (processRecord true vars tb attack rec).abort = some a ∧
      (diagnostic a).isSome = true := by
    intro tb
    rcases hd with hs | ⟨hp, hne⟩
    · obtain ⟨vars', hv⟩ := processRecord_sequential_agg vars tb attack rec hs (hrp hs)
      exact ⟨Abort.sequentialInAggregate, by rw [hv], rfl⟩
    · exact ⟨Abort.unequalHammerRows,
        by rw [processRecord_pair_unequal vars tb attack rec hp hne], rfl⟩
  obtain ⟨a, ha, hdiag⟩ := habort table
  obtain ⟨a0, ha0, hdiag0⟩ := habort []
  refine ⟨a, ha, hdiag, walkSet_cons_abort true vars table attack rec rest a ha, ?_⟩
  intro sname moreSets moreSets'
  have hne_rc : attack ≠ "read_count" := by
    refine startswith_ne_read_count attack ?_
    rcases hd with hs | ⟨hp, _⟩
    · exact Or.inl hs
    · exact Or.inr hp
  have hfil : ((attack, rec) :: rest).filter (fun p => p.1 ≠ "read_count")
      = (attack, rec) :: rest.filter (fun p => p.1 ≠ "read_count") := by
    simp [List.filter_cons, hne_rc]
  have hs0 : (walkSet true vars []
      (((attack, rec) :: rest).filter (fun p => p.1 ≠ "read_count"))).abort = some a0 := by
    rw [hfil,
      walkSet_cons_abort true vars [] attack rec
        (rest.filter (fun p => p.1 ≠ "read_count")) a0 ha0]
  rw [walkLog_cons_abort true vars sname ((attack, rec) :: rest) moreSets a0 hs0,
    walkLog_cons_abort true vars sname ((attack, rec) :: rest) moreSets' a0 hs0]

/-- Witness for C9 at a pair record hammering rows 50 and 60. -/
theorem disqualifying_record_aborts_run_witness :
    ∃ a, (processRecord true initVars [] "pair_0" recU).abort = some a ∧
      (diagnostic a).isSome = true ∧
      walkSet true initVars [] [("pair_0", recU)] =
        ⟨(processRecord true initVars [] "pair_0" recU).vars,
         (processRecord true initVars [] "pair_0" recU).table,
         (processRecord true initVars [] "pair_0" recU).events, some a⟩ ∧
      ∀ sname moreSets moreSets',
        walkLog true initVars ((sname, [("pair_0", recU)]) :: moreSets) =
          walkLog true initVars ((sname, [("pair_0", recU)]) :: moreSets') :=
  disqualifying_record_aborts_run initVars [] "pair_0" recU [] (by decide)
    (Or.inr ⟨by decide, by decide⟩)

/-- C10: in aggregate mode a pair record with unequal hammer rows is inserted
into the table under `hammer_row_1` before the equality check fires, so at
the abort the table has already been mutated with the disqualifying record's
victim entries. -/
theorem unequal_pair_inserted_before_abort (vars : Vars) (table : Table)
    (attack : String) (rec : AttackRecord)
    (hp : startswith attack "pair" = true)
    (hne : rec.hammer_row_1 ≠ rec.hammer_row_2) :
    (processRecord true vars table attack rec).abort = some Abort.unequalHammerRows ∧
    (processRecord true vars table attack rec).table
        = dictSet table rec.hammer_row_1 rec.errors_in_rows ∧
    dictGet (processRecord true vars table attack rec).table rec.hammer_row_1
        = some rec.errors_in_rows := by
  rw [processRecord_pair_unequal vars table attack rec hp hne]
  exact ⟨rfl, rfl, dictGet_dictSet _ _ _⟩

/-- Witness for C10 at `recU` (hammer rows 50 and 60): the abort state already
holds `recU`'s victim entries under key 50. -/
theorem unequal_pair_inserted_before_abort_witness :
    (processRecord true initVars [] "pair_0" recU).abort = some Abort.unequalHammerRows ∧
    (processRecord true initVars [] "pair_0" recU).table
        = dictSet [] 50 [("51", reA)] ∧
    dictGet (processRecord true initVars [] "pair_0" recU).table 50 = some [("51", reA)] :=
  unequal_pair_inserted_before_abort initVars [] "pair_0" recU (by decide) (by decide)

/-- C4: for every `ErrorsInRows` input to the single-attack flattening step,
the two parallel output sequences `row_vals` (dense row indices) and
`col_vals` (column numbers) each have length equal to the total number of
per-bit-flip records summed across all rows and columns of the ragged
input. -/
theorem flatten_length_eq_total_flips (e : ErrorsInRows) :
    (row_vals e).length = total_flips e ∧ (col_vals e).length = total_flips e :=
  ⟨row_vals_from_length 0 e, col_vals_length e⟩

/-- C5: the dense row-index assignment of the single-attack flattening step
is strictly order-preserving and injective: a row label at an earlier
insertion position receives a strictly smaller dense index, and entries at
distinct positions (in particular any two distinct labels) never share an
index. -/
theorem dense_index_order_preserving (e : ErrorsInRows) (i j : Nat)
    (hi : i < (dense_index e).length) (hj : j < (dense_index e).length) :
    (i < j → ((dense_index e).get ⟨i, hi⟩).2 < ((dense_index e).get ⟨j, hj⟩).2) ∧
    (((dense_index e).get ⟨i, hi⟩).1 ≠ ((dense_index e).get ⟨j, hj⟩).1 →
      ((dense_index e).get ⟨i, hi⟩).2 ≠ ((dense_index e).get ⟨j, hj⟩).2) := by
  have hgi : ((dense_index e).get ⟨i, hi⟩).2 = i := by
    simpa using dense_index_from_get 0 (row_labels e) i hi
  have hgj : ((dense_index e).get ⟨j, hj⟩).2 = j := by
    simpa using dense_index_from_get 0 (row_labels e) j hj
  constructor
  · intro hij
    rw [hgi, hgj]
    exact hij
  · intro hlab
    rw [hgi, hgj]
    intro hij
    subst hij
    exact hlab rfl

/-- Witness for C5 at the concrete two-row input `exE`: position 0 gets a
strictly smaller dense index than position 1. -/
theorem dense_index_order_preserving_witness :
    ((dense_index exE).get ⟨0, by decide⟩).2 < ((dense_index exE).get ⟨1, by decide⟩).2 :=
  (dense_index_order_preserving exE 0 1 (by decide) (by decide)).1 (by decide)

/-- C8: for every non-negative maximum histogram value, the colorbar tick
step of both renderers equals `max 1 (M / 20)` (floor division) and in
particular is at least 1, even when `M < 20`. -/
theorem ticks_step_max_floor_div (M : Nat) :
    ticks_step_single M = max 1 (M / 20) ∧ ticks_step_avv M = max 1 (M / 20) ∧
    1 ≤ ticks_step_single M ∧ 1 ≤ ticks_step_avv M :=
  ⟨rfl, rfl, le_max_left 1 (M / 20), le_max_left 1 (M / 20)⟩

end Logs2Plot
